import Mathlib

/-!
Shallow embedding of `sudoku.py`: a Sudoku board class with a grid,
a move history, and a validator (`verify_board`) that decomposes the
grid into rows, columns and 3x3 cells and reports either completeness
or the set of duplicated values.

Python list indexing may raise `IndexError`; we model every grid access
as an `Option Int` (`pyCell`), and a Python `for` loop whose body may
raise is modelled by the option-sequencing map `omap`, which aborts at
the first failing element.  Cell values are `Int` (Python integers).
-/

set_option autoImplicit false
set_option maxRecDepth 100000

universe u v

/-- A move record `(pos, num, pencil)` exactly as stored in `self.moves`. -/
abbrev Move := (Int × Int) × Int × Bool

/-- Option-sequencing map: runs `f` over the list left to right, collecting
results, aborting with `none` at the first failure.  This is the meaning of a
Python loop that appends `f a` for each element and may raise. -/
def omap {α : Type u} {β : Type v} (f : α → Option β) : List α → Option (List β)
  | [] => some []
  | a :: as =>
    match f a with
    | none => none
    | some b =>
      match omap f as with
      | none => none
      | some bs => some (b :: bs)

/-- Python `self._board[row][col]`: `none` models an `IndexError`. -/
def pyCell (b : List (List Int)) (row col : Nat) : Option Int :=
  (b.get? row).bind fun r => r.get? col

/-- Total access used to phrase results once `pyCell` is known to succeed. -/
def cellVal (b : List (List Int)) (row col : Nat) : Int :=
  (b.getD row []).getD col 0

/-- The module constant `CELL_IDX = [[0, 1, 2], [3, 4, 5], [6, 7, 8]]`. -/
def CELL_IDX : List (List Nat) := [[0, 1, 2], [3, 4, 5], [6, 7, 8]]

/-- The Sudoku board: `_dim`, `moves`, `_board` from the class attributes. -/
structure Sudoku where
  dim : Nat
  moves : List Move
  board : List (List Int)
deriving DecidableEq

/-- Constructor `Sudoku(dim)` with `board=None`: an all-zero `dim × dim` grid
and an empty move list. -/
def Sudoku.make (dim : Nat) : Sudoku :=
  { dim := dim, moves := [], board := List.replicate dim (List.replicate dim 0) }

/-- Constructor `Sudoku(dim, board)`: copies entry `(row, col)` of the caller
grid for all `row, col < dim`; `none` models an `IndexError` when the supplied
grid is too small. -/
def Sudoku.makeFrom (dim : Nat) (board : List (List Int)) : Option Sudoku :=
  (omap (fun row => omap (fun col => pyCell board row col) (List.range dim))
      (List.range dim)).map
    fun b => { dim := dim, moves := [], board := b }

/-- Method `get_dim`. -/
def Sudoku.get_dim (s : Sudoku) : Nat := s.dim

/-- Method `get_board`. -/
def Sudoku.get_board (s : Sudoku) : List (List Int) := s.board

/-- Method `get_square`: `self._board[row][col]`. -/
def Sudoku.get_square (s : Sudoku) (row col : Nat) : Option Int :=
  pyCell s.board row col

/-- Method `get_last_move`: pops and returns the last move when the history is
non-empty, else returns `None`; the pair carries the updated board state. -/
def Sudoku.get_last_move (s : Sudoku) : Option Move × Sudoku :=
  if s.moves.isEmpty then (none, s)
  else (s.moves.getLast?, { s with moves := s.moves.dropLast })

/-- Method `set_square`: `self._board[row][col] = num`; `none` models an
`IndexError` on an out-of-range index. -/
def Sudoku.set_square (s : Sudoku) (row col : Nat) (num : Int) : Option Sudoku :=
  match s.board.get? row with
  | none => none
  | some r =>
    if col < r.length then
      some { s with board := s.board.set row (r.set col num) }
    else none

/-- Method `add_move`: appends `(pos, num, pencil)` to `self.moves`. -/
def Sudoku.add_move (s : Sudoku) (pos : Int × Int) (num : Int) (pencil : Bool) :
    Sudoku :=
  { s with moves := s.moves ++ [(pos, num, pencil)] }

/-- Row-major enumeration of the index pairs scanned by the nested loops
`for row in range(dim): for col in range(dim)`. -/
def rowMajor (dim : Nat) : List (Nat × Nat) :=
  (List.range dim).flatMap fun row => (List.range dim).map fun col => (row, col)

/-- Method `get_pos_from_num`: scans the grid in row-major order and collects
the positions holding `num`; `none` models an `IndexError` mid-scan. -/
def Sudoku.get_pos_from_num (s : Sudoku) (num : Int) : Option (List (Nat × Nat)) :=
  (omap (fun rc => (pyCell s.board rc.1 rc.2).map fun v => (rc.1, rc.2, v))
      (rowMajor s.dim)).map
    fun l => l.filterMap fun t => if t.2.2 = num then some (t.1, t.2.1) else none

/-- The nine `(idx1, idx2)` pairs of the nested loops
`for idx1 in CELL_IDX: for idx2 in CELL_IDX`. -/
def blockPairs : List (List Nat × List Nat) :=
  CELL_IDX.flatMap fun idx1 => CELL_IDX.map fun idx2 => (idx1, idx2)

/-- The grid positions visited inside one block:
`for row in idx1: for col in idx2`. -/
def blockPositions (p : List Nat × List Nat) : List (Nat × Nat) :=
  p.1.flatMap fun row => p.2.map fun col => (row, col)

/-- The column-gathering loops of `get_row_col_cell`:
`for col in range(dim): for row in range(dim): column.append(board[row][col])`. -/
def Sudoku.getCols (s : Sudoku) : Option (List (List Int)) :=
  omap (fun col => omap (fun row => pyCell s.board row col) (List.range s.dim))
    (List.range s.dim)

/-- The cell-gathering loops of `get_row_col_cell`, over the hardcoded
`CELL_IDX` index groups. -/
def Sudoku.getCells (s : Sudoku) : Option (List (List Int)) :=
  omap (fun p => omap (fun rc => pyCell s.board rc.1 rc.2) (blockPositions p))
    blockPairs

/-- Method `get_row_col_cell`: rows are (a shallow copy of) the grid, columns
are gathered by `range(dim)` loops, cells by the `CELL_IDX` loops; any
out-of-range access makes the whole call fail. -/
def Sudoku.get_row_col_cell (s : Sudoku) :
    Option (List (List Int) × List (List Int) × List (List Int)) :=
  match s.getCols with
  | none => none
  | some cols =>
    match s.getCells with
    | none => none
    | some cells => some (s.board, cols, cells)

/-- The result of `verify_board`: either a completeness boolean or a set of
duplicated values (the Python `Union[bool, set]`). -/
inductive VerifyResult where
  | complete : Bool → VerifyResult
  | duplicates : Finset Int → VerifyResult
deriving DecidableEq

/-- The values `num` of one configuration with `config.count(num) > 1` and
`num != 0`, i.e. what one iteration of the duplicate loop adds to the set. -/
def groupDups (config : List Int) : Finset Int :=
  config.toFinset.filter fun num => 1 < config.count num ∧ num ≠ 0

/-- The duplicate-value set accumulated over all configurations, mirroring
`for config in lst: for num in set(config): ... duplicate_num.add(num)`. -/
def dupSet (lst : List (List Int)) : Finset Int :=
  lst.foldl (fun acc config => acc ∪ groupDups config) ∅

/-- Method `verify_board`: decomposes the grid, computes the row-based
completeness flag, and returns the duplicate set when non-empty, else the
flag. -/
def Sudoku.verify_board (s : Sudoku) : Option VerifyResult :=
  match s.get_row_col_cell with
  | none => none
  | some (rows, cols, cells) =>
    let lst := rows ++ cols ++ cells
    let state := s.board.all fun row => !(row.contains 0)
    let d := dupSet lst
    if d = ∅ then some (.complete state) else some (.duplicates d)

/-- The 27 constraint groups of a board, flattened in the order `verify_board`
scans them; `[]` when the decomposition fails. -/
def Sudoku.groupsOf (s : Sudoku) : List (List Int) :=
  match s.get_row_col_cell with
  | none => []
  | some (rows, cols, cells) => rows ++ cols ++ cells

/-- The duplicate-value set as the specification words it: the non-zero values
that appear more than once within at least one constraint group. -/
def specDuplicateSet (groups : List (List Int)) : Finset Int :=
  (groups.flatMap id).toFinset.filter fun v => v ≠ 0 ∧ ∃ g ∈ groups, 1 < g.count v

/-- A board is well-formed when its grid really is `dim × dim`; every board
the constructors produce satisfies this. -/
def Sudoku.WF (s : Sudoku) : Prop :=
  s.board.length = s.dim ∧ ∀ row ∈ s.board, row.length = s.dim

instance (s : Sudoku) : Decidable s.WF := by
  unfold Sudoku.WF; infer_instance

/-! ### Basic lemmas about `omap` and `pyCell` -/

theorem omap_eq_some_of_forall {α : Type u} {β : Type v}
    (f : α → Option β) (g : α → β) :
    ∀ l : List α, (∀ a ∈ l, f a = some (g a)) → omap f l = some (l.map g)
  | [], _ => rfl
  | a :: as, h => by
    have ha := h a (List.mem_cons_self a as)
    have hrest := omap_eq_some_of_forall f g as
      (fun b hb => h b (List.mem_cons_of_mem a hb))
    simp [omap, ha, hrest]

theorem omap_eq_none {α : Type u} {β : Type v}
    (f : α → Option β) (l : List α) (a : α)
    (ha : a ∈ l) (hf : f a = none) : omap f l = none := by
  induction l with
  | nil => cases ha
  | cons b bs ih =>
    rcases List.mem_cons.mp ha with rfl | h
    · simp [omap, hf]
    · unfold omap
      cases hfb : f b with
      | none => rfl
      | some _ => rw [ih h]

theorem pyCell_eq_some {b : List (List Int)} {dim row col : Nat}
    (hlen : b.length = dim) (hrows : ∀ r ∈ b, r.length = dim)
    (hr : row < dim) (hc : col < dim) :
    pyCell b row col = some (cellVal b row col) := by
  have hrow : row < b.length := by omega
  have h1 : b.get? row = some b[row] := by
    rw [List.get?_eq_getElem?]
    exact List.getElem?_eq_getElem hrow
  have hmem : b[row] ∈ b := List.getElem_mem hrow
  have hlenrow : b[row].length = dim := hrows _ hmem
  have hcol : col < b[row].length := by omega
  have h2 : b[row].get? col = some b[row][col] := by
    rw [List.get?_eq_getElem?]
    exact List.getElem?_eq_getElem hcol
  have h3 : cellVal b row col = b[row][col] := by
    unfold cellVal
    rw [List.getD_eq_getElem?_getD, List.getD_eq_getElem?_getD,
      List.getElem?_eq_getElem hrow]
    simp [List.getElem?_eq_getElem hcol]
  rw [pyCell, h1, Option.some_bind, h2, h3]

theorem pyCell_eq_none {b : List (List Int)} {row col : Nat}
    (hr : b.length ≤ row) : pyCell b row col = none := by
  rw [pyCell, List.get?_eq_getElem?, List.getElem?_eq_none hr]
  rfl

/-! ### Membership in the duplicate set -/

theorem mem_foldl_union {β : Type} [DecidableEq β] (f : List Int → Finset β) :
    ∀ (lst : List (List Int)) (init : Finset β) (v : β),
      (v ∈ lst.foldl (fun acc c => acc ∪ f c) init) ↔ v ∈ init ∨ ∃ c ∈ lst, v ∈ f c
  | [], init, v => by simp
  | c :: cs, init, v => by
    rw [List.foldl_cons, mem_foldl_union f cs (init ∪ f c) v]
    simp only [Finset.mem_union, List.mem_cons]
    constructor
    · rintro ((h | h) | ⟨d, hd, hv⟩)
      · exact Or.inl h
      · exact Or.inr ⟨c, Or.inl rfl, h⟩
      · exact Or.inr ⟨d, Or.inr hd, hv⟩
    · rintro (h | ⟨d, (rfl | hd), hv⟩)
      · exact Or.inl (Or.inl h)
      · exact Or.inl (Or.inr hv)
      · exact Or.inr ⟨d, hd, hv⟩

theorem mem_groupDups {config : List Int} {v : Int} :
    v ∈ groupDups config ↔ 1 < config.count v ∧ v ≠ 0 := by
  rw [groupDups, Finset.mem_filter, List.mem_toFinset]
  constructor
  · rintro ⟨-, h⟩; exact h
  · rintro ⟨h1, h0⟩
    exact ⟨List.count_pos_iff.mp (by omega), h1, h0⟩

theorem mem_dupSet {lst : List (List Int)} {v : Int} :
    v ∈ dupSet lst ↔ ∃ c ∈ lst, 1 < c.count v ∧ v ≠ 0 := by
  rw [dupSet, mem_foldl_union]
  simp [mem_groupDups]

theorem mem_specDuplicateSet {groups : List (List Int)} {v : Int} :
    v ∈ specDuplicateSet groups ↔ v ≠ 0 ∧ ∃ g ∈ groups, 1 < g.count v := by
  rw [specDuplicateSet, Finset.mem_filter, List.mem_toFinset]
  constructor
  · rintro ⟨-, h⟩; exact h
  · rintro ⟨h0, g, hg, hcount⟩
    refine ⟨?_, h0, g, hg, hcount⟩
    rw [List.mem_flatMap]
    have hv : v ∈ g := List.count_pos_iff.mp (by omega)
    exact ⟨g, hg, by simpa using hv⟩

theorem dupSet_eq_specDuplicateSet (lst : List (List Int)) :
    dupSet lst = specDuplicateSet lst := by
  ext v
  rw [mem_dupSet, mem_specDuplicateSet]
  constructor
  · rintro ⟨c, hc, h1, h0⟩; exact ⟨h0, c, hc, h1⟩
  · rintro ⟨h0, c, hc, h1⟩; exact ⟨c, hc, h1, h0⟩

/-! ### The decomposition succeeds iff the dimension is at least 9 -/

theorem getCols_eq {s : Sudoku} (hWF : s.WF) :
    s.getCols = some ((List.range s.dim).map fun col =>
      (List.range s.dim).map fun row => cellVal s.board row col) := by
  obtain ⟨hlen, hrows⟩ := hWF
  apply omap_eq_some_of_forall
  intro col hcol
  apply omap_eq_some_of_forall
  intro row hrow
  exact pyCell_eq_some hlen hrows (List.mem_range.mp hrow) (List.mem_range.mp hcol)

theorem blockPositions_bounded :
    ∀ p ∈ blockPairs, ∀ rc ∈ blockPositions p, rc.1 < 9 ∧ rc.2 < 9 := by decide

theorem getCells_eq {s : Sudoku} (hWF : s.WF) (hdim : 9 ≤ s.dim) :
    s.getCells = some (blockPairs.map fun p =>
      (blockPositions p).map fun rc => cellVal s.board rc.1 rc.2) := by
  obtain ⟨hlen, hrows⟩ := hWF
  apply omap_eq_some_of_forall
  intro p hp
  apply omap_eq_some_of_forall
  intro rc hrc
  obtain ⟨h1, h2⟩ := blockPositions_bounded p hp rc hrc
  exact pyCell_eq_some hlen hrows (by omega) (by omega)

theorem getCells_eq_none {s : Sudoku} (hlen : s.board.length = s.dim)
    (hdim : s.dim < 9) : s.getCells = none := by
  apply omap_eq_none _ _ ([6, 7, 8], [6, 7, 8]) (by decide)
  apply omap_eq_none _ _ (8, 8) (by decide)
  exact pyCell_eq_none (by omega)

theorem get_row_col_cell_eq {s : Sudoku} (hWF : s.WF) (hdim : 9 ≤ s.dim) :
    s.get_row_col_cell = some (s.board,
      (List.range s.dim).map fun col =>
        (List.range s.dim).map fun row => cellVal s.board row col,
      blockPairs.map fun p =>
        (blockPositions p).map fun rc => cellVal s.board rc.1 rc.2) := by
  rw [Sudoku.get_row_col_cell, getCols_eq hWF, getCells_eq hWF hdim]

theorem get_row_col_cell_eq_none {s : Sudoku} (hlen : s.board.length = s.dim)
    (hdim : s.dim < 9) : s.get_row_col_cell = none := by
  rw [Sudoku.get_row_col_cell, getCells_eq_none hlen hdim]
  cases s.getCols <;> rfl

/-! ### Unfolding `verify_board` once the decomposition is known -/

theorem verify_board_of_rcc {s : Sudoku} {rows cols cells : List (List Int)}
    (h : s.get_row_col_cell = some (rows, cols, cells)) :
    s.verify_board =
      (if dupSet (rows ++ cols ++ cells) = ∅ then
        some (.complete (s.board.all fun row => !(row.contains 0)))
      else some (.duplicates (dupSet (rows ++ cols ++ cells)))) := by
  rw [Sudoku.verify_board, h]

theorem groupsOf_of_rcc {s : Sudoku} {rows cols cells : List (List Int)}
    (h : s.get_row_col_cell = some (rows, cols, cells)) :
    s.groupsOf = rows ++ cols ++ cells := by
  rw [Sudoku.groupsOf, h]

theorem verify_board_eq_none {s : Sudoku} (h : s.get_row_col_cell = none) :
    s.verify_board = none := by
  rw [Sudoku.verify_board, h]

/-! ### Both constructors produce well-formed boards -/

theorem omap_forall2 {α : Type u} {β : Type v} {f : α → Option β} :
    ∀ {l : List α} {m : List β}, omap f l = some m →
      List.Forall₂ (fun a b => f a = some b) l m := by
  intro l
  induction l with
  | nil =>
    intro m h
    rw [omap] at h
    cases h
    exact List.Forall₂.nil
  | cons a as ih =>
    intro m h
    rw [omap] at h
    cases hfa : f a with
    | none => rw [hfa] at h; cases h
    | some b =>
      rw [hfa] at h
      cases hrest : omap f as with
      | none => rw [hrest] at h; cases h
      | some bs =>
        rw [hrest] at h
        cases h
        exact List.Forall₂.cons hfa (ih hrest)

theorem omap_length {α : Type u} {β : Type v} {f : α → Option β}
    {l : List α} {m : List β} (h : omap f l = some m) :
    m.length = l.length :=
  (omap_forall2 h).length_eq.symm

theorem make_WF (dim : Nat) : (Sudoku.make dim).WF := by
  constructor
  · simp [Sudoku.make]
  · intro row hrow
    rw [Sudoku.make] at hrow
    simp only at hrow
    rw [List.eq_of_mem_replicate hrow]
    simp [Sudoku.make]

theorem makeFrom_WF {dim : Nat} {g : List (List Int)} {s : Sudoku}
    (h : Sudoku.makeFrom dim g = some s) :
    s.WF ∧ s.dim = dim ∧ s.moves = [] := by
  rw [Sudoku.makeFrom] at h
  cases hb : omap (fun row => omap (fun col => pyCell g row col)
      (List.range dim)) (List.range dim) with
  | none => rw [hb] at h; cases h
  | some b =>
    rw [hb] at h
    cases h
    refine ⟨⟨?_, ?_⟩, rfl, rfl⟩
    · simpa [List.length_range] using omap_length hb
    · intro row hrow
      have h2 := omap_forall2 hb
      rw [List.forall₂_iff_get] at h2
      obtain ⟨hlen, hget⟩ := h2
      obtain ⟨i, hi, rfl⟩ := List.mem_iff_get.mp hrow
      have hib : (i : Nat) < b.length := i.isLt
      have hbl : b.length = dim := (omap_length hb).trans (List.length_range dim)
      have hir : (i : Nat) < (List.range dim).length := by
        rw [List.length_range]
        omega
      have hgi := hget i hir hib
      exact (omap_length hgi).trans (List.length_range dim)

/-! ### Claim C1: duplicates are reported exactly -/

/-- C1: on a well-formed 9x9 board, whenever the set of non-zero values that
appear more than once within at least one of the 27 constraint groups is
non-empty, `verify_board` returns exactly that set (as a set, each value
once), `0` is never a member, and membership in the returned set is exactly
"non-zero and duplicated within some group" — regardless of completeness. -/
theorem verify_board_reports_duplicates (s : Sudoku) (hWF : s.WF)
    (h9 : s.dim = 9) (hne : specDuplicateSet s.groupsOf ≠ ∅) :
    s.verify_board = some (.duplicates (specDuplicateSet s.groupsOf)) ∧
    (0 : Int) ∉ specDuplicateSet s.groupsOf ∧
    (∀ v : Int, v ∈ specDuplicateSet s.groupsOf ↔
      v ≠ 0 ∧ ∃ g ∈ s.groupsOf, 1 < g.count v) := by
  have hrcc := get_row_col_cell_eq hWF (by omega)
  have hg := groupsOf_of_rcc hrcc
  rw [verify_board_of_rcc hrcc, ← hg, dupSet_eq_specDuplicateSet, if_neg hne]
  refine ⟨rfl, ?_, fun v => mem_specDuplicateSet⟩
  intro h0
  exact (mem_specDuplicateSet.mp h0).1 rfl

/-- A 9x9 board that is a valid complete solution except that row 0 holds the
value 5 twice. -/
def dupBoard : Sudoku :=
  { dim := 9, moves := [], board :=
    [[5, 5, 0, 0, 0, 0, 0, 0, 0],
     [0, 0, 0, 0, 0, 0, 0, 0, 0],
     [0, 0, 0, 0, 0, 0, 0, 0, 0],
     [0, 0, 0, 0, 0, 0, 0, 0, 0],
     [0, 0, 0, 0, 0, 0, 0, 0, 0],
     [0, 0, 0, 0, 0, 0, 0, 0, 0],
     [0, 0, 0, 0, 0, 0, 0, 0, 0],
     [0, 0, 0, 0, 0, 0, 0, 0, 0],
     [0, 0, 0, 0, 0, 0, 0, 0, 0]] }

/-- Witness for C1 at a concrete board with a duplicated 5 in row 0. -/
theorem verify_board_reports_duplicates_witness :
    dupBoard.verify_board = some (.duplicates (specDuplicateSet dupBoard.groupsOf)) ∧
    (0 : Int) ∉ specDuplicateSet dupBoard.groupsOf ∧
    (∀ v : Int, v ∈ specDuplicateSet dupBoard.groupsOf ↔
      v ≠ 0 ∧ ∃ g ∈ dupBoard.groupsOf, 1 < g.count v) :=
  verify_board_reports_duplicates dupBoard (by decide) rfl (by decide)

/-! ### Claim C2: completeness reporting when no group has duplicates -/

/-- C2: on a well-formed 9x9 board none of whose 27 constraint groups holds a
repeated non-zero value, `verify_board` returns a boolean, and that boolean is
true exactly when no row of the grid contains a 0 cell. -/
theorem verify_board_reports_completeness (s : Sudoku) (hWF : s.WF)
    (h9 : s.dim = 9)
    (hnd : ∀ g ∈ s.groupsOf, (g.filter fun v => v ≠ 0).Nodup) :
    s.verify_board =
      some (.complete (s.board.all fun row => !(row.contains 0))) ∧
    ((s.board.all fun row => !(row.contains 0)) = true ↔
      ∀ row ∈ s.board, (0 : Int) ∉ row) := by
  have hrcc := get_row_col_cell_eq hWF (by omega)
  have hg := groupsOf_of_rcc hrcc
  have hempty : specDuplicateSet s.groupsOf = ∅ := by
    rw [Finset.eq_empty_iff_forall_not_mem]
    intro v hv
    rw [mem_specDuplicateSet] at hv
    obtain ⟨h0, c, hc, h1⟩ := hv
    have hnodup := hnd c hc
    rw [List.nodup_iff_count_le_one] at hnodup
    have h2 := hnodup v
    rw [List.count_filter (by simp [h0])] at h2
    omega
  rw [verify_board_of_rcc hrcc, ← hg, dupSet_eq_specDuplicateSet,
    if_pos hempty]
  refine ⟨rfl, ?_⟩
  simp

/-- A full valid 9x9 solution grid. -/
def solvedBoard : Sudoku :=
  { dim := 9, moves := [], board :=
    [[1, 2, 3, 4, 5, 6, 7, 8, 9],
     [4, 5, 6, 7, 8, 9, 1, 2, 3],
     [7, 8, 9, 1, 2, 3, 4, 5, 6],
     [2, 3, 4, 5, 6, 7, 8, 9, 1],
     [5, 6, 7, 8, 9, 1, 2, 3, 4],
     [8, 9, 1, 2, 3, 4, 5, 6, 7],
     [3, 4, 5, 6, 7, 8, 9, 1, 2],
     [6, 7, 8, 9, 1, 2, 3, 4, 5],
     [9, 1, 2, 3, 4, 5, 6, 7, 8]] }

/-- Witness for C2 at a concrete duplicate-free complete solution. -/
theorem verify_board_reports_completeness_witness :
    solvedBoard.verify_board =
      some (.complete (solvedBoard.board.all fun row => !(row.contains 0))) ∧
    ((solvedBoard.board.all fun row => !(row.contains 0)) = true ↔
      ∀ row ∈ solvedBoard.board, (0 : Int) ∉ row) :=
  verify_board_reports_completeness solvedBoard (by decide) rfl (by decide)

/-! ### Claim C3: shape of the decomposition -/

theorem blockPositions_length : ∀ p ∈ blockPairs, (blockPositions p).length = 9 := by
  decide

/-- C3: on a well-formed 9x9 board the decomposition returns rows = the grid
rows in order, columns with `cols[j][i] = board[i][j]`, and 9 blocks of 9
cells with `cells[3a+b][3r+c] = board[3a+r][3b+c]` (outer loop over rows,
inner over columns within a block). -/
theorem get_row_col_cell_structure (s : Sudoku) (hWF : s.WF) (h9 : s.dim = 9) :
    ∃ rows cols cells, s.get_row_col_cell = some (rows, cols, cells) ∧
      rows = s.board ∧
      cols.length = 9 ∧ cells.length = 9 ∧ (∀ blk ∈ cells, blk.length = 9) ∧
      (∀ i j : Nat, i < 9 → j < 9 →
        (cols.get? j).bind (fun col => col.get? i) = pyCell s.board i j) ∧
      (∀ a b r c : Nat, a < 3 → b < 3 → r < 3 → c < 3 →
        (cells.get? (3 * a + b)).bind (fun blk => blk.get? (3 * r + c)) =
          pyCell s.board (3 * a + r) (3 * b + c)) := by
  obtain ⟨hlen, hrows⟩ := hWF
  have hrcc := get_row_col_cell_eq ⟨hlen, hrows⟩ (by omega)
  rw [h9] at hrcc
  refine ⟨_, _, _, hrcc, rfl, by simp, rfl, ?_, ?_, ?_⟩
  · intro blk hblk
    rw [List.mem_map] at hblk
    obtain ⟨p, hp, rfl⟩ := hblk
    rw [List.length_map]
    exact blockPositions_length p hp
  · intro i j hi hj
    rw [pyCell_eq_some hlen hrows (by omega) (by omega)]
    simp [List.get?_eq_getElem?, List.getElem?_range, hi, hj]
  · intro a b r c ha hb hr hc
    rw [pyCell_eq_some hlen hrows (by omega) (by omega)]
    interval_cases a <;> interval_cases b <;> interval_cases r <;>
      interval_cases c <;> rfl

/-- Witness for C3 at the empty 9x9 board. -/
theorem get_row_col_cell_structure_witness :
    ∃ rows cols cells,
      (Sudoku.make 9).get_row_col_cell = some (rows, cols, cells) ∧
      rows = (Sudoku.make 9).board ∧
      cols.length = 9 ∧ cells.length = 9 ∧ (∀ blk ∈ cells, blk.length = 9) ∧
      (∀ i j : Nat, i < 9 → j < 9 →
        (cols.get? j).bind (fun col => col.get? i) =
          pyCell (Sudoku.make 9).board i j) ∧
      (∀ a b r c : Nat, a < 3 → b < 3 → r < 3 → c < 3 →
        (cells.get? (3 * a + b)).bind (fun blk => blk.get? (3 * r + c)) =
          pyCell (Sudoku.make 9).board (3 * a + r) (3 * b + c)) :=
  get_row_col_cell_structure (Sudoku.make 9) (by decide) rfl

/-! ### Claims C4 and C5: totality of `verify_board` depends on the dimension -/

theorem verify_board_total_of_rcc {s : Sudoku}
    {rows cols cells : List (List Int)}
    (h : s.get_row_col_cell = some (rows, cols, cells)) :
    ∃ res, s.verify_board = some res ∧
      ((∃ bl, res = VerifyResult.complete bl) ∨
       (∃ d, res = VerifyResult.duplicates d ∧ d ≠ ∅)) := by
  rw [verify_board_of_rcc h]
  by_cases hd : dupSet (rows ++ cols ++ cells) = ∅
  · rw [if_pos hd]
    exact ⟨_, rfl, Or.inl ⟨_, rfl⟩⟩
  · rw [if_neg hd]
    exact ⟨_, rfl, Or.inr ⟨_, rfl, hd⟩⟩

/-- C4, counterexample: the claim quantifies over every dimension the
constructor accepts, but already on the empty 3x3 board `verify_board` hits
an out-of-range access (`CELL_IDX` reaches index 8) and returns no result. -/
theorem verify_board_not_total_dim3 : (Sudoku.make 3).verify_board = none := by
  decide

/-- C4 (amended to dimensions of at least 9): on every well-formed board of
dimension at least 9, `verify_board` performs no out-of-range access and
returns either a completeness boolean or a non-empty duplicate-value set. -/
theorem verify_board_total_ge9 (s : Sudoku) (hWF : s.WF) (hdim : 9 ≤ s.dim) :
    ∃ res, s.verify_board = some res ∧
      ((∃ bl, res = VerifyResult.complete bl) ∨
       (∃ d, res = VerifyResult.duplicates d ∧ d ≠ ∅)) :=
  verify_board_total_of_rcc (get_row_col_cell_eq hWF hdim)

/-- Witness for the amended C4 at the empty 9x9 board. -/
theorem verify_board_total_ge9_witness :
    ∃ res, (Sudoku.make 9).verify_board = some res ∧
      ((∃ bl, res = VerifyResult.complete bl) ∨
       (∃ d, res = VerifyResult.duplicates d ∧ d ≠ ∅)) :=
  verify_board_total_ge9 (Sudoku.make 9) (by decide) (by decide)

/-- C5: on every well-formed board, the decomposition and `verify_board` fail
(with an out-of-range access) exactly when the dimension is below 9: below 9
they return no result, from 9 upwards they always return one. -/
theorem decomposition_oob_iff_small_dim (s : Sudoku) (hWF : s.WF) :
    (s.dim < 9 → s.get_row_col_cell = none ∧ s.verify_board = none) ∧
    (9 ≤ s.dim → (s.get_row_col_cell).isSome ∧ (s.verify_board).isSome) := by
  constructor
  · intro hdim
    have h1 := get_row_col_cell_eq_none hWF.1 hdim
    exact ⟨h1, verify_board_eq_none h1⟩
  · intro hdim
    have h1 := get_row_col_cell_eq hWF hdim
    obtain ⟨res, h2, -⟩ := verify_board_total_of_rcc h1
    rw [h1, h2]
    exact ⟨rfl, rfl⟩

/-- Witness for C5 at the empty 3x3 and 9x9 boards. -/
theorem decomposition_oob_iff_small_dim_witness :
    ((Sudoku.make 3).get_row_col_cell = none ∧
      (Sudoku.make 3).verify_board = none) ∧
    (((Sudoku.make 9).get_row_col_cell).isSome ∧
      ((Sudoku.make 9).verify_board).isSome) :=
  ⟨(decomposition_oob_iff_small_dim (Sudoku.make 3) (by decide)).1 (by decide),
   (decomposition_oob_iff_small_dim (Sudoku.make 9) (by decide)).2 (by decide)⟩

/-! ### Claim C6: construction -/

theorem omap_congr {α : Type u} {β : Type v} {f f2 : α → Option β} :
    ∀ {l : List α}, (∀ a ∈ l, f a = f2 a) → omap f l = omap f2 l := by
  intro l
  induction l with
  | nil => intro _; rfl
  | cons a as ih =>
    intro h
    rw [omap, omap, h a (List.mem_cons_self a as),
      ih (fun b hb => h b (List.mem_cons_of_mem a hb))]

theorem makeFrom_cell {dim : Nat} {g : List (List Int)} {s : Sudoku}
    (h : Sudoku.makeFrom dim g = some s) {r c : Nat}
    (hr : r < dim) (hc : c < dim) :
    pyCell s.board r c = pyCell g r c := by
  rw [Sudoku.makeFrom] at h
  cases hb : omap (fun row => omap (fun col => pyCell g row col)
      (List.range dim)) (List.range dim) with
  | none => rw [hb] at h; cases h
  | some b =>
    rw [hb] at h
    cases h
    have hF := omap_forall2 hb
    rw [List.forall₂_iff_get] at hF
    obtain ⟨hlen, hget⟩ := hF
    have hrr : r < (List.range dim).length := by rw [List.length_range]; omega
    have hrb : r < b.length := by rw [← hlen]; exact hrr
    have hrow := hget r hrr hrb
    simp only [List.get_range] at hrow
    have hF2 := omap_forall2 hrow
    rw [List.forall₂_iff_get] at hF2
    obtain ⟨hlen2, hget2⟩ := hF2
    have hcc : c < (List.range dim).length := by rw [List.length_range]; omega
    have hcb : c < (b.get ⟨r, hrb⟩).length := by rw [← hlen2]; exact hcc
    have hcell := hget2 c hcc hcb
    simp only [List.get_range] at hcell
    rw [pyCell, List.get?_eq_get hrb]
    simp only [Option.some_bind]
    rw [List.get?_eq_get hcb]
    exact hcell.symm

/-- C6: a board built from a supplied grid copies exactly the `d × d` top-left
values of that grid (value-for-value, with no aliasing: the result depends
only on those values), starts with an empty history, and is well-formed; a
board built with no grid is all zeros with an empty history. -/
theorem construction_copies (d : Nat) (g : List (List Int)) (s : Sudoku)
    (h : Sudoku.makeFrom d g = some s) :
    s.dim = d ∧ s.moves = [] ∧ s.WF ∧
    (∀ r c : Nat, r < d → c < d → pyCell s.board r c = pyCell g r c) ∧
    (∀ g2 : List (List Int),
      (∀ r c : Nat, r < d → c < d → pyCell g2 r c = pyCell g r c) →
      Sudoku.makeFrom d g2 = some s) ∧
    (Sudoku.make d).moves = [] ∧ (Sudoku.make d).dim = d ∧
    (∀ r c : Nat, r < d → c < d →
      pyCell (Sudoku.make d).board r c = some 0) := by
  obtain ⟨hWF, hdim, hmoves⟩ := makeFrom_WF h
  refine ⟨hdim, hmoves, hWF, fun r c hr hc => makeFrom_cell h hr hc,
    ?_, rfl, rfl, ?_⟩
  · intro g2 hsame
    rw [← h, Sudoku.makeFrom, Sudoku.makeFrom]
    congr 1
    apply omap_congr
    intro row hrow
    apply omap_congr
    intro col hcol
    exact hsame row col (List.mem_range.mp hrow) (List.mem_range.mp hcol)
  · intro r c hr hc
    simp [Sudoku.make, pyCell, List.get?_eq_getElem?, List.getElem?_replicate,
      hr, hc]

/-- Witness for C6 at a concrete 2x2 copy of a larger grid. -/
theorem construction_copies_witness :
    ({ dim := 2, moves := [], board := [[1, 2], [4, 5]] } : Sudoku).dim = 2 ∧
    ({ dim := 2, moves := [], board := [[1, 2], [4, 5]] } : Sudoku).moves = [] ∧
    ({ dim := 2, moves := [], board := [[1, 2], [4, 5]] } : Sudoku).WF ∧
    (∀ r c : Nat, r < 2 → c < 2 →
      pyCell ({ dim := 2, moves := [], board := [[1, 2], [4, 5]] } : Sudoku).board r c =
        pyCell [[1, 2, 3], [4, 5, 6], [7, 8, 9]] r c) ∧
    (∀ g2 : List (List Int),
      (∀ r c : Nat, r < 2 → c < 2 →
        pyCell g2 r c = pyCell [[1, 2, 3], [4, 5, 6], [7, 8, 9]] r c) →
      Sudoku.makeFrom 2 g2 =
        some { dim := 2, moves := [], board := [[1, 2], [4, 5]] }) ∧
    (Sudoku.make 2).moves = [] ∧ (Sudoku.make 2).dim = 2 ∧
    (∀ r c : Nat, r < 2 → c < 2 →
      pyCell (Sudoku.make 2).board r c = some 0) :=
  construction_copies 2 [[1, 2, 3], [4, 5, 6], [7, 8, 9]]
    { dim := 2, moves := [], board := [[1, 2], [4, 5]] } (by decide)

/-! ### Claim C7: move history pop order -/

/-- C7: after recording three moves on an empty history, three pops return
them newest first, each pop removing the move it returned; a fourth pop on
the now-empty history returns `none` and leaves the history empty. -/
theorem move_history_pop_order (s : Sudoku) (h : s.moves = [])
    (p1 p2 p3 : Int × Int) (n1 n2 n3 : Int) (b1 b2 b3 : Bool) :
    (((s.add_move p1 n1 b1).add_move p2 n2 b2).add_move p3 n3 b3).get_last_move
      = (some (p3, n3, b3), (s.add_move p1 n1 b1).add_move p2 n2 b2) ∧
    ((s.add_move p1 n1 b1).add_move p2 n2 b2).get_last_move
      = (some (p2, n2, b2), s.add_move p1 n1 b1) ∧
    (s.add_move p1 n1 b1).get_last_move = (some (p1, n1, b1), s) ∧
    s.get_last_move = (none, s) ∧
    (s.get_last_move).2.moves = [] := by
  obtain ⟨d, mv, bd⟩ := s
  simp only at h
  subst h
  simp [Sudoku.add_move, Sudoku.get_last_move]

/-- Witness for C7 on the empty 3x3 board with three concrete moves. -/
theorem move_history_pop_order_witness :
    (((((Sudoku.make 3).add_move (0, 0) 1 true).add_move (1, 1) 2 false).add_move
        (2, 2) 3 true).get_last_move
      = (some ((2, 2), 3, true),
        ((Sudoku.make 3).add_move (0, 0) 1 true).add_move (1, 1) 2 false)) ∧
    ((((Sudoku.make 3).add_move (0, 0) 1 true).add_move (1, 1) 2 false).get_last_move
      = (some ((1, 1), 2, false), (Sudoku.make 3).add_move (0, 0) 1 true)) ∧
    (((Sudoku.make 3).add_move (0, 0) 1 true).get_last_move
      = (some ((0, 0), 1, true), Sudoku.make 3)) ∧
    ((Sudoku.make 3).get_last_move = (none, Sudoku.make 3)) ∧
    (((Sudoku.make 3).get_last_move).2.moves = []) :=
  move_history_pop_order (Sudoku.make 3) rfl (0, 0) (1, 1) (2, 2) 1 2 3 true false true

/-! ### Claim C8: `get_pos_from_num` scans in row-major order -/

/-- Strict row-major precedence on positions: earlier row, or same row and
earlier column. -/
def rmLt (x y : Nat × Nat) : Prop := x.1 < y.1 ∨ (x.1 = y.1 ∧ x.2 < y.2)

theorem mem_rowMajor {d : Nat} {rc : Nat × Nat} :
    rc ∈ rowMajor d ↔ rc.1 < d ∧ rc.2 < d := by
  obtain ⟨r, c⟩ := rc
  rw [rowMajor, List.mem_flatMap]
  constructor
  · rintro ⟨row, hrow, hmem⟩
    rw [List.mem_map] at hmem
    obtain ⟨col, hcol, heq⟩ := hmem
    obtain ⟨rfl, rfl⟩ := Prod.mk.injEq .. ▸ heq
    exact ⟨List.mem_range.mp hrow, List.mem_range.mp hcol⟩
  · rintro ⟨hr, hc⟩
    exact ⟨r, List.mem_range.mpr hr,
      List.mem_map.mpr ⟨c, List.mem_range.mpr hc, rfl⟩⟩

theorem pairwise_rowMajor (d : Nat) : (rowMajor d).Pairwise rmLt := by
  rw [rowMajor, List.pairwise_flatMap]
  constructor
  · intro a _
    rw [List.pairwise_map]
    exact (List.pairwise_lt_range d).imp fun h => Or.inr ⟨rfl, h⟩
  · apply (List.pairwise_lt_range d).imp
    intro a b hab x hx y hy
    rw [List.mem_map] at hx hy
    obtain ⟨c1, -, rfl⟩ := hx
    obtain ⟨c2, -, rfl⟩ := hy
    exact Or.inl hab

/-- C8: on a well-formed board, `get_pos_from_num` succeeds and returns the
positions currently holding `num` — all of them and nothing else — listed in
strictly increasing row-major order (sorted by row, then by column). -/
theorem find_positions_correct (s : Sudoku) (hWF : s.WF) (num : Int) :
    ∃ l, s.get_pos_from_num num = some l ∧
      (∀ r c : Nat, (r, c) ∈ l ↔
        r < s.dim ∧ c < s.dim ∧ pyCell s.board r c = some num) ∧
      l.Pairwise rmLt := by
  obtain ⟨hlen, hrows⟩ := hWF
  have homap : omap
      (fun rc => (pyCell s.board rc.1 rc.2).map fun v => (rc.1, rc.2, v))
      (rowMajor s.dim) =
      some ((rowMajor s.dim).map fun rc =>
        (rc.1, rc.2, cellVal s.board rc.1 rc.2)) := by
    apply omap_eq_some_of_forall
    intro rc hrc
    rw [mem_rowMajor] at hrc
    rw [pyCell_eq_some hlen hrows hrc.1 hrc.2]
    rfl
  rw [Sudoku.get_pos_from_num, homap]
  simp only [Option.map_some']
  refine ⟨_, rfl, ?_, ?_⟩
  · intro r c
    rw [List.filterMap_map, List.mem_filterMap]
    constructor
    · rintro ⟨⟨r0, c0⟩, hrc, hres⟩
      simp only [Function.comp] at hres
      by_cases hv : cellVal s.board r0 c0 = num
      · rw [if_pos hv] at hres
        obtain ⟨rfl, rfl⟩ := Prod.mk.injEq .. ▸ Option.some.inj hres
        rw [mem_rowMajor] at hrc
        exact ⟨hrc.1, hrc.2, by rw [pyCell_eq_some hlen hrows hrc.1 hrc.2, hv]⟩
      · rw [if_neg hv] at hres
        cases hres
    · rintro ⟨hr, hc, hcell⟩
      refine ⟨(r, c), mem_rowMajor.mpr ⟨hr, hc⟩, ?_⟩
      have hv : cellVal s.board r c = num := by
        have := pyCell_eq_some hlen hrows hr hc
        rw [hcell] at this
        exact (Option.some.inj this).symm
      simp only [Function.comp]
      rw [if_pos hv]
  · rw [List.filterMap_map, List.pairwise_filterMap]
    apply (pairwise_rowMajor s.dim).imp
    intro a b hab x hx y hy
    simp only [Function.comp, Option.mem_def] at hx hy
    by_cases hva : cellVal s.board a.1 a.2 = num
    · by_cases hvb : cellVal s.board b.1 b.2 = num
      · rw [if_pos hva] at hx
        rw [if_pos hvb] at hy
        cases Option.some.inj hx
        cases Option.some.inj hy
        exact hab
      · rw [if_neg hvb] at hy
        cases hy
    · rw [if_neg hva] at hx
      cases hx

/-- Witness for C8 at the specification's 3x3 example board, searching for 1. -/
theorem find_positions_correct_witness :
    ∃ l, ({ dim := 3, moves := [],
            board := [[1, 0, 1], [0, 1, 0], [1, 0, 1]] } :
          Sudoku).get_pos_from_num 1 = some l ∧
    (∀ r c : Nat, (r, c) ∈ l ↔ r < 3 ∧ c < 3 ∧
      pyCell [[1, 0, 1], [0, 1, 0], [1, 0, 1]] r c = some 1) ∧
    l.Pairwise rmLt :=
  find_positions_correct
    { dim := 3, moves := [], board := [[1, 0, 1], [0, 1, 0], [1, 0, 1]] }
    (by decide) 1

/-! ### Claim C9: cell write/read round-trip -/

/-- C9: for any in-range position and any integer value, `set_square` succeeds
and a following `get_square` at the same position returns that value. -/
theorem set_get_roundtrip (s : Sudoku) (hWF : s.WF) (row col : Nat)
    (hr : row < s.dim) (hc : col < s.dim) (num : Int) :
    ∃ s2, s.set_square row col num = some s2 ∧
      s2.get_square row col = some num := by
  obtain ⟨hlen, hrows⟩ := hWF
  have hrow : row < s.board.length := by omega
  have h1 : s.board.get? row = some s.board[row] := by
    rw [List.get?_eq_getElem?]
    exact List.getElem?_eq_getElem hrow
  have hcol : col < s.board[row].length := by
    rw [hrows _ (List.getElem_mem hrow)]
    omega
  rw [Sudoku.set_square, h1]
  simp only [if_pos hcol]
  refine ⟨_, rfl, ?_⟩
  rw [Sudoku.get_square, pyCell]
  simp only
  rw [List.get?_eq_getElem?,
    List.getElem?_set_self (by omega)]
  simp only [Option.some_bind]
  rw [List.get?_eq_getElem?, List.getElem?_set_self hcol]

/-- Witness for C9: writing 3 at (1, 1) of the empty 9x9 board then reading
it back. -/
theorem set_get_roundtrip_witness :
    ∃ s2, (Sudoku.make 9).set_square 1 1 3 = some s2 ∧
      s2.get_square 1 1 = some 3 :=
  set_get_roundtrip (Sudoku.make 9) (by decide) 1 1 (by decide) (by decide) 3

/-! ### Claim C10: `add_move` appends and changes nothing else -/

/-- C10: `add_move` appends exactly the given triple at the end of the move
history, preserving all earlier moves in order, and leaves the grid and the
dimension untouched. -/
theorem add_move_frame (s : Sudoku) (pos : Int × Int) (num : Int)
    (pencil : Bool) :
    (s.add_move pos num pencil).moves = s.moves ++ [(pos, num, pencil)] ∧
    (s.add_move pos num pencil).board = s.board ∧
    (s.add_move pos num pencil).dim = s.dim :=
  ⟨rfl, rfl, rfl⟩
